import Mathlib

/-!
Shallow embedding of the bitcoin backtesting strategies
(dollar_cost_averaging.py, ath_dip_strategy.py, moving_average_strategy.py).

Prices are modelled as rationals; the date is an abstract natural number
(the engine only copies dates into its output records).  Python runtime
exceptions (IndexError from `data[-1]`, ZeroDivisionError from `x / 0`)
are modelled with an `Except BtError` result: the loops are fail-fast,
exactly like an uncaught Python exception.
-/

/-- One daily OHLCV bar, as produced by load.py.  The strategies read only
`date`, `high` and `close`. -/
structure Bar where
  date : Nat
  open_ : ℚ
  high : ℚ
  low : ℚ
  close : ℚ
  volume : ℚ
deriving DecidableEq

/-- The two Python runtime errors the backtests can raise:
`indexError` models `data[-1]` on an empty list, `zeroDivision` models
division by zero. -/
inductive BtError where
  | indexError : BtError
  | zeroDivision : BtError
deriving DecidableEq

/-- Python division on floats: raises ZeroDivisionError when the divisor is
zero, otherwise ordinary division (negative divisors are allowed). -/
def pyDiv (a b : ℚ) : Except BtError ℚ :=
  if b = 0 then .error .zeroDivision else .ok (a / b)

/-- The daily loop of each backtest: fold the step over the bars, aborting
on the first error, exactly like an uncaught Python exception. -/
def runLoop {σ α : Type} (step : σ → α → Except BtError σ) : σ → List α → Except BtError σ
  | s, [] => .ok s
  | s, x :: xs =>
    match step s x with
    | .error e => .error e
    | .ok s' => runLoop step s' xs

/-- Effectful map, aborting on the first error (used for the up-front
moving-average pass). -/
def mapLoop {α β : Type} (f : α → Except BtError β) : List α → Except BtError (List β)
  | [] => .ok []
  | x :: xs =>
    match f x with
    | .error e => .error e
    | .ok y =>
      match mapLoop f xs with
      | .error e => .error e
      | .ok ys => .ok (y :: ys)

/-! ## Dollar cost averaging (dollar_cost_averaging.py) -/

/-- One entry of the `purchases` list built by `backtest_dca_strategy`. -/
structure DcaPurchase where
  date : Nat
  price : ℚ
  amount_invested : ℚ
  bitcoin_purchased : ℚ
  total_bitcoin : ℚ
  total_invested : ℚ
deriving DecidableEq

/-- The mutable loop state of `backtest_dca_strategy`. -/
structure DcaState where
  total_invested : ℚ
  total_bitcoin : ℚ
  purchases : List DcaPurchase
  portfolio_values : List ℚ
deriving DecidableEq

def dcaInit : DcaState :=
  { total_invested := 0, total_bitcoin := 0, purchases := [], portfolio_values := [] }

/-- One iteration of the loop in `backtest_dca_strategy`: buy
`daily_investment / close` every day unconditionally, then record the
portfolio value `total_bitcoin * close`. -/
def dcaStep (daily_investment : ℚ) (s : DcaState) (bar : Bar) : Except BtError DcaState :=
  match pyDiv daily_investment bar.close with
  | .error e => .error e
  | .ok bitcoin_purchased =>
    let total_bitcoin := s.total_bitcoin + bitcoin_purchased
    let total_invested := s.total_invested + daily_investment
    .ok { total_invested := total_invested
          total_bitcoin := total_bitcoin
          purchases := s.purchases ++
            [{ date := bar.date, price := bar.close,
               amount_invested := daily_investment,
               bitcoin_purchased := bitcoin_purchased,
               total_bitcoin := total_bitcoin,
               total_invested := total_invested }]
          portfolio_values := s.portfolio_values ++ [total_bitcoin * bar.close] }

/-- The summary dict returned by `backtest_dca_strategy`. -/
structure DcaResult where
  total_invested : ℚ
  final_value : ℚ
  total_return : ℚ
  return_percentage : ℚ
  total_bitcoin : ℚ
  average_purchase_price : ℚ
  final_bitcoin_price : ℚ
  daily_investment : ℚ
  number_of_days : Nat
  purchases : List DcaPurchase
  portfolio_values : List ℚ
deriving DecidableEq

/-- The final calculations of `backtest_dca_strategy` (lines after the loop). -/
def mkDcaResult (s : DcaState) (final_bar : Bar) (daily_investment : ℚ)
    (number_of_days : Nat) : DcaResult :=
  let final_price := final_bar.close
  let final_value := s.total_bitcoin * final_price
  let total_return := final_value - s.total_invested
  { total_invested := s.total_invested
    final_value := final_value
    total_return := total_return
    return_percentage :=
      if 0 < s.total_invested then total_return / s.total_invested * 100 else 0
    total_bitcoin := s.total_bitcoin
    average_purchase_price :=
      if 0 < s.total_bitcoin then s.total_invested / s.total_bitcoin else 0
    final_bitcoin_price := final_price
    daily_investment := daily_investment
    number_of_days := number_of_days
    purchases := s.purchases
    portfolio_values := s.portfolio_values }

/-- `backtest_dca_strategy(data, daily_investment)`.  After the loop the code
reads `data[-1]`, which raises IndexError on an empty list. -/
def backtest_dca_strategy (data : List Bar) (daily_investment : ℚ) :
    Except BtError DcaResult :=
  match runLoop (dcaStep daily_investment) dcaInit data with
  | .error e => .error e
  | .ok s =>
    match data.getLast? with
    | none => .error .indexError
    | some final_bar => .ok (mkDcaResult s final_bar daily_investment data.length)

/-! ## All-time-high dip strategy (ath_dip_strategy.py) -/

/-- One entry of the `purchases` list built by `backtest_ath_dip_strategy`. -/
structure AthPurchase where
  date : Nat
  price : ℚ
  amount_invested : ℚ
  bitcoin_purchased : ℚ
  all_time_high : ℚ
  dip_percentage : ℚ
  total_bitcoin : ℚ
  total_invested : ℚ
  purchase_number : Nat
deriving DecidableEq

/-- One entry of the `portfolio_values` list built by
`backtest_ath_dip_strategy`. -/
structure AthValuation where
  date : Nat
  price : ℚ
  ath : ℚ
  portfolio_value : ℚ
  total_invested : ℚ
  accumulated_cash : ℚ
  unrealized_return : ℚ
deriving DecidableEq

/-- The mutable loop state of `backtest_ath_dip_strategy`. -/
structure AthState where
  all_time_high : ℚ
  accumulated_cash : ℚ
  total_invested : ℚ
  total_bitcoin : ℚ
  purchases : List AthPurchase
  portfolio_values : List AthValuation
  purchase_count : Nat
deriving DecidableEq

def athInit : AthState :=
  { all_time_high := 0, accumulated_cash := 0, total_invested := 0, total_bitcoin := 0,
    purchases := [], portfolio_values := [], purchase_count := 0 }

/-- One iteration of the loop in `backtest_ath_dip_strategy`: accrue the
daily budget, update the all-time high from the bar high, compute the dip
threshold from the updated high, and deploy all accumulated cash when
`close <= threshold` and `accumulated_cash > 0` and `all_time_high > 0`;
finally record a portfolio valuation for the day. -/
def athStep (dip_percentage daily_budget : ℚ) (s : AthState) (bar : Bar) :
    Except BtError AthState :=
  let current_price := bar.close
  let accumulated_cash := s.accumulated_cash + daily_budget
  let all_time_high := max s.all_time_high bar.high
  let dip_threshold := all_time_high * (1 - dip_percentage / 100)
  if current_price ≤ dip_threshold ∧ 0 < accumulated_cash ∧ 0 < all_time_high then
    match pyDiv accumulated_cash current_price with
    | .error e => .error e
    | .ok bitcoin_purchased =>
      let total_bitcoin := s.total_bitcoin + bitcoin_purchased
      let total_invested := s.total_invested + accumulated_cash
      let purchase_count := s.purchase_count + 1
      let dip_from_ath := ((all_time_high - current_price) / all_time_high) * 100
      let cash_after : ℚ := 0
      let portfolio_value := cash_after + total_bitcoin * current_price
      .ok { all_time_high := all_time_high
            accumulated_cash := cash_after
            total_invested := total_invested
            total_bitcoin := total_bitcoin
            purchases := s.purchases ++
              [{ date := bar.date, price := current_price,
                 amount_invested := accumulated_cash,
                 bitcoin_purchased := bitcoin_purchased,
                 all_time_high := all_time_high,
                 dip_percentage := dip_from_ath,
                 total_bitcoin := total_bitcoin,
                 total_invested := total_invested,
                 purchase_number := purchase_count }]
            portfolio_values := s.portfolio_values ++
              [{ date := bar.date, price := current_price, ath := all_time_high,
                 portfolio_value := portfolio_value,
                 total_invested := total_invested,
                 accumulated_cash := cash_after,
                 unrealized_return :=
                   if 0 < total_invested then portfolio_value - total_invested - cash_after
                   else 0 }]
            purchase_count := purchase_count }
  else
    let portfolio_value := accumulated_cash + s.total_bitcoin * current_price
    .ok { all_time_high := all_time_high
          accumulated_cash := accumulated_cash
          total_invested := s.total_invested
          total_bitcoin := s.total_bitcoin
          purchases := s.purchases
          portfolio_values := s.portfolio_values ++
            [{ date := bar.date, price := current_price, ath := all_time_high,
               portfolio_value := portfolio_value,
               total_invested := s.total_invested,
               accumulated_cash := accumulated_cash,
               unrealized_return :=
                 if 0 < s.total_invested then
                   portfolio_value - s.total_invested - accumulated_cash
                 else 0 }]
          purchase_count := s.purchase_count }

/-- The summary dict returned by `backtest_ath_dip_strategy`. -/
structure AthResult where
  dip_percentage : ℚ
  daily_budget : ℚ
  total_invested : ℚ
  final_value : ℚ
  total_return : ℚ
  return_percentage : ℚ
  total_bitcoin : ℚ
  average_purchase_price : ℚ
  final_bitcoin_price : ℚ
  final_ath : ℚ
  accumulated_cash : ℚ
  number_of_purchases : Nat
  number_of_days : Nat
  purchases : List AthPurchase
  portfolio_values : List AthValuation
deriving DecidableEq

/-- The final calculations of `backtest_ath_dip_strategy` (lines after the
loop).  Note `total_return = final_value - total_invested -
accumulated_cash`: idle cash is subtracted here, unlike in the other two
strategies. -/
def mkAthResult (s : AthState) (final_bar : Bar) (dip_percentage daily_budget : ℚ)
    (number_of_days : Nat) : AthResult :=
  let final_price := final_bar.close
  let final_value := s.accumulated_cash + s.total_bitcoin * final_price
  let total_return := final_value - s.total_invested - s.accumulated_cash
  { dip_percentage := dip_percentage
    daily_budget := daily_budget
    total_invested := s.total_invested
    final_value := final_value
    total_return := total_return
    return_percentage :=
      if 0 < s.total_invested then total_return / s.total_invested * 100 else 0
    total_bitcoin := s.total_bitcoin
    average_purchase_price :=
      if 0 < s.total_bitcoin then s.total_invested / s.total_bitcoin else 0
    final_bitcoin_price := final_price
    final_ath := s.all_time_high
    accumulated_cash := s.accumulated_cash
    number_of_purchases := s.purchases.length
    number_of_days := number_of_days
    purchases := s.purchases
    portfolio_values := s.portfolio_values }

/-- `backtest_ath_dip_strategy(data, dip_percentage, daily_budget)`.  After
the loop the code reads `data[-1]`, which raises IndexError on an empty
list. -/
def backtest_ath_dip_strategy (data : List Bar) (dip_percentage daily_budget : ℚ) :
    Except BtError AthResult :=
  match runLoop (athStep dip_percentage daily_budget) athInit data with
  | .error e => .error e
  | .ok s =>
    match data.getLast? with
    | none => .error .indexError
    | some final_bar =>
      .ok (mkAthResult s final_bar dip_percentage daily_budget data.length)

/-! ## Moving average strategy (moving_average_strategy.py) -/

/-- Closed form of one entry of `calculate_moving_average`: `none` while
`i < window - 1` (comparison as in Python ints; for `window = 0` the guard
is false for every `i ≥ 0`, matching `i < -1`), otherwise the sum of the
closes of bars `i + 1 - window` through `i` divided by the window.  The
slice `(data.drop (i + 1 - window)).take window` is exactly
`data[i - window + 1 : i + 1]`. -/
def maEntry (data : List Bar) (window : Nat) (i : Nat) : Option ℚ :=
  if i < window - 1 then none
  else some ((((data.drop (i + 1 - window)).take window).map Bar.close).sum / (window : ℚ))

/-- `calculate_moving_average(data, window)`: one pass over all indices,
computed before the trading loop.  The division by `window` is Python
division, so `window = 0` raises ZeroDivisionError at the first index
(its guard `i < window - 1` is then false, as `i < -1` is in Python). -/
def calculate_moving_average (data : List Bar) (window : Nat) :
    Except BtError (List (Option ℚ)) :=
  mapLoop
    (fun i =>
      if i < window - 1 then .ok none
      else
        match pyDiv (((data.drop (i + 1 - window)).take window).map Bar.close).sum
            (window : ℚ) with
        | .error e => .error e
        | .ok avg => .ok (some avg))
    (List.range data.length)

/-- One entry of the `trades` list built by
`backtest_moving_average_strategy` (`amount` is the bitcoin bought,
`cash_used` the cash deployed). -/
structure MaTrade where
  date : Nat
  action : String
  price : ℚ
  amount : ℚ
  cash_used : ℚ
deriving DecidableEq

/-- The mutable loop state of `backtest_moving_average_strategy`. -/
structure MaState where
  accumulated_cash : ℚ
  bitcoin_held : ℚ
  total_invested : ℚ
  trades : List MaTrade
  portfolio_values : List ℚ
deriving DecidableEq

def maInit : MaState :=
  { accumulated_cash := 0, bitcoin_held := 0, total_invested := 0,
    trades := [], portfolio_values := [] }

/-- One iteration of the loop in `backtest_moving_average_strategy`,
consuming the bar paired with its precomputed moving average: accrue the
daily budget; if the average is `None` record a valuation and continue;
otherwise deploy all accumulated cash when `close < ma` and
`accumulated_cash > 0`, then record a valuation. -/
def maStep (daily_budget : ℚ) (s : MaState) (pair : Bar × Option ℚ) :
    Except BtError MaState :=
  let bar := pair.1
  let current_price := bar.close
  let accumulated_cash := s.accumulated_cash + daily_budget
  match pair.2 with
  | none =>
    .ok { s with
          accumulated_cash := accumulated_cash
          portfolio_values := s.portfolio_values ++
            [accumulated_cash + s.bitcoin_held * current_price] }
  | some ma =>
    if current_price < ma ∧ 0 < accumulated_cash then
      match pyDiv accumulated_cash current_price with
      | .error e => .error e
      | .ok bitcoin_bought =>
        let bitcoin_held := s.bitcoin_held + bitcoin_bought
        let total_invested := s.total_invested + accumulated_cash
        let cash_after : ℚ := 0
        .ok { accumulated_cash := cash_after
              bitcoin_held := bitcoin_held
              total_invested := total_invested
              trades := s.trades ++
                [{ date := bar.date, action := "BUY", price := current_price,
                   amount := bitcoin_bought, cash_used := accumulated_cash }]
              portfolio_values := s.portfolio_values ++
                [cash_after + bitcoin_held * current_price] }
    else
      .ok { s with
            accumulated_cash := accumulated_cash
            portfolio_values := s.portfolio_values ++
              [accumulated_cash + s.bitcoin_held * current_price] }

/-- The summary dict returned by `backtest_moving_average_strategy`. -/
structure MaResult where
  total_invested : ℚ
  final_value : ℚ
  total_return : ℚ
  return_percentage : ℚ
  trades : List MaTrade
  portfolio_values : List ℚ
  moving_average_window : Nat
  bitcoin_held : ℚ
  accumulated_cash : ℚ
  daily_budget : ℚ
  number_of_days : Nat
deriving DecidableEq

/-- The final calculations of `backtest_moving_average_strategy` (lines
after the loop). -/
def mkMaResult (s : MaState) (final_bar : Bar) (ma_window : Nat) (daily_budget : ℚ)
    (number_of_days : Nat) : MaResult :=
  let final_value := s.accumulated_cash + s.bitcoin_held * final_bar.close
  { total_invested := s.total_invested
    final_value := final_value
    total_return := final_value - s.total_invested
    return_percentage :=
      if 0 < s.total_invested then
        (final_value - s.total_invested) / s.total_invested * 100
      else 0
    trades := s.trades
    portfolio_values := s.portfolio_values
    moving_average_window := ma_window
    bitcoin_held := s.bitcoin_held
    accumulated_cash := s.accumulated_cash
    daily_budget := daily_budget
    number_of_days := number_of_days }

/-- `backtest_moving_average_strategy(data, ma_window, daily_budget)`: the
moving averages are computed up front, then the loop pairs bar `i` with
`moving_averages[i]`.  The final value reads `data[-1]`, which raises
IndexError on an empty list. -/
def backtest_moving_average_strategy (data : List Bar) (ma_window : Nat)
    (daily_budget : ℚ) : Except BtError MaResult :=
  match calculate_moving_average data ma_window with
  | .error e => .error e
  | .ok moving_averages =>
    match runLoop (maStep daily_budget) maInit (data.zip moving_averages) with
    | .error e => .error e
    | .ok s =>
      match data.getLast? with
      | none => .error .indexError
      | some final_bar => .ok (mkMaResult s final_bar ma_window daily_budget data.length)

/-! ## Generic lemmas about the loop combinators -/

/-- A state invariant preserved by every successful step holds at the end of
a successful loop. -/
theorem runLoop_inv {σ α : Type} (P : σ → Prop) (Q : α → Prop)
    (step : σ → α → Except BtError σ)
    (hstep : ∀ s x s', Q x → P s → step s x = .ok s' → P s') :
    ∀ (l : List α) (s0 sf : σ), (∀ x ∈ l, Q x) → P s0 →
      runLoop step s0 l = .ok sf → P sf := by
  intro l
  induction l with
  | nil =>
    intro s0 sf _ hP h
    simp only [runLoop] at h
    cases h
    exact hP
  | cons x xs ih =>
    intro s0 sf hQ hP h
    simp only [runLoop] at h
    cases hs : step s0 x with
    | error e => rw [hs] at h; simp at h
    | ok s1 =>
      rw [hs] at h
      exact ih s1 sf (fun b hb => hQ b (List.mem_cons_of_mem _ hb))
        (hstep s0 x s1 (hQ x (List.mem_cons_self _ _)) hP hs) h

/-- If every successful step appends exactly one valuation and at most one
event (stamped with the date of the consumed element), then a successful
loop appends one valuation per element and an event list whose dates form
a sublist of the element dates, in order. -/
theorem runLoop_shape {σ α β γ : Type} (pv : σ → List β) (ev : σ → List γ)
    (edate : γ → Nat) (xdate : α → Nat) (step : σ → α → Except BtError σ)
    (hstep : ∀ s x s', step s x = .ok s' →
      (pv s').length = (pv s).length + 1 ∧
      (ev s' = ev s ∨ ∃ e, ev s' = ev s ++ [e] ∧ edate e = xdate x)) :
    ∀ (l : List α) (s0 sf : σ), runLoop step s0 l = .ok sf →
      (pv sf).length = (pv s0).length + l.length ∧
      ∃ es, ev sf = ev s0 ++ es ∧ List.Sublist (es.map edate) (l.map xdate) := by
  intro l
  induction l with
  | nil =>
    intro s0 sf h
    simp only [runLoop] at h
    cases h
    exact ⟨by simp, [], by simp, by simp⟩
  | cons x xs ih =>
    intro s0 sf h
    simp only [runLoop] at h
    cases hs : step s0 x with
    | error e => rw [hs] at h; simp at h
    | ok s1 =>
      rw [hs] at h
      obtain ⟨hlen, es, hev, hsub⟩ := ih s1 sf h
      obtain ⟨hl1, hev1⟩ := hstep s0 x s1 hs
      refine ⟨by rw [hlen, hl1]; simp [List.length_cons]; omega, ?_⟩
      cases hev1 with
      | inl hsame =>
        refine ⟨es, by rw [hev, hsame], ?_⟩
        simp only [List.map_cons]
        exact hsub.cons _
      | inr hnew =>
        obtain ⟨e, he, hd⟩ := hnew
        refine ⟨e :: es, ?_, ?_⟩
        · rw [hev, he]; simp
        · simp only [List.map_cons, hd]
          exact List.Sublist.cons₂ _ hsub

/-- A `mapLoop` whose body succeeds pointwise computes the plain map. -/
theorem mapLoop_eq_map {α β : Type} (f : α → Except BtError β) (g : α → β) :
    ∀ l : List α, (∀ a ∈ l, f a = .ok (g a)) → mapLoop f l = .ok (l.map g) := by
  intro l
  induction l with
  | nil => intro _; simp [mapLoop]
  | cons x xs ih =>
    intro hall
    simp only [mapLoop]
    rw [hall x (List.mem_cons_self _ _), ih (fun a ha => hall a (List.mem_cons_of_mem _ ha))]
    simp

/-- A successful `mapLoop` preserves the length. -/
theorem mapLoop_length {α β : Type} (f : α → Except BtError β) :
    ∀ (l : List α) (ys : List β), mapLoop f l = .ok ys → ys.length = l.length := by
  intro l
  induction l with
  | nil =>
    intro ys h
    simp only [mapLoop] at h
    cases h
    rfl
  | cons x xs ih =>
    intro ys h
    simp only [mapLoop] at h
    cases hx : f x with
    | error e => rw [hx] at h; simp at h
    | ok y =>
      rw [hx] at h
      cases hxs : mapLoop f xs with
      | error e => rw [hxs] at h; simp at h
      | ok ys' =>
        rw [hxs] at h
        cases h
        simp [ih ys' hxs]

/-! ## Inversion of the three backtests on success -/

theorem backtest_dca_ok {data : List Bar} {daily : ℚ} {r : DcaResult}
    (h : backtest_dca_strategy data daily = .ok r) :
    ∃ s fb, runLoop (dcaStep daily) dcaInit data = .ok s ∧
      data.getLast? = some fb ∧ r = mkDcaResult s fb daily data.length := by
  unfold backtest_dca_strategy at h
  cases hf : runLoop (dcaStep daily) dcaInit data with
  | error e => rw [hf] at h; simp at h
  | ok s =>
    rw [hf] at h
    cases hl : data.getLast? with
    | none => rw [hl] at h; simp at h
    | some fb =>
      rw [hl] at h
      simp at h
      exact ⟨s, fb, rfl, rfl, h.symm⟩

theorem backtest_ath_ok {data : List Bar} {dip daily : ℚ} {r : AthResult}
    (h : backtest_ath_dip_strategy data dip daily = .ok r) :
    ∃ s fb, runLoop (athStep dip daily) athInit data = .ok s ∧
      data.getLast? = some fb ∧ r = mkAthResult s fb dip daily data.length := by
  unfold backtest_ath_dip_strategy at h
  cases hf : runLoop (athStep dip daily) athInit data with
  | error e => rw [hf] at h; simp at h
  | ok s =>
    rw [hf] at h
    cases hl : data.getLast? with
    | none => rw [hl] at h; simp at h
    | some fb =>
      rw [hl] at h
      simp at h
      exact ⟨s, fb, rfl, rfl, h.symm⟩

theorem backtest_ma_ok {data : List Bar} {w : Nat} {daily : ℚ} {r : MaResult}
    (h : backtest_moving_average_strategy data w daily = .ok r) :
    ∃ mas s fb, calculate_moving_average data w = .ok mas ∧
      runLoop (maStep daily) maInit (data.zip mas) = .ok s ∧
      data.getLast? = some fb ∧ r = mkMaResult s fb w daily data.length := by
  unfold backtest_moving_average_strategy at h
  cases hm : calculate_moving_average data w with
  | error e => rw [hm] at h; simp at h
  | ok mas =>
    simp only [hm] at h
    cases hf : runLoop (maStep daily) maInit (data.zip mas) with
    | error e => rw [hf] at h; simp at h
    | ok s =>
      rw [hf] at h
      cases hl : data.getLast? with
      | none => rw [hl] at h; simp at h
      | some fb =>
        rw [hl] at h
        simp at h
        exact ⟨mas, s, fb, rfl, hf, rfl, h.symm⟩

/-! ## Per-step facts about the three strategies -/

/-- A successful DCA step appends one valuation and one purchase dated
with the bar consumed. -/
theorem dcaStep_shape {d : ℚ} {s : DcaState} {b : Bar} {s' : DcaState}
    (h : dcaStep d s b = .ok s') :
    s'.portfolio_values.length = s.portfolio_values.length + 1 ∧
    (s'.purchases = s.purchases ∨
      ∃ e, s'.purchases = s.purchases ++ [e] ∧ e.date = b.date) := by
  unfold dcaStep pyDiv at h
  by_cases hc : b.close = 0
  · simp [hc] at h
  · simp [hc] at h
    subst h
    exact ⟨by simp, Or.inr ⟨_, rfl, rfl⟩⟩

/-- A successful DCA step preserves the conservation invariant. -/
theorem dcaStep_conserve {d : ℚ} {s : DcaState} {b : Bar} {s' : DcaState}
    (h : dcaStep d s b = .ok s')
    (hs : s.total_invested = (s.purchases.map DcaPurchase.amount_invested).sum ∧
      s.total_bitcoin = (s.purchases.map DcaPurchase.bitcoin_purchased).sum) :
    s'.total_invested = (s'.purchases.map DcaPurchase.amount_invested).sum ∧
    s'.total_bitcoin = (s'.purchases.map DcaPurchase.bitcoin_purchased).sum := by
  unfold dcaStep pyDiv at h
  by_cases hc : b.close = 0
  · simp [hc] at h
  · simp [hc] at h
    subst h
    simp [hs.1, hs.2]

/-- A successful DCA step keeps invested capital and holdings non-negative
when the daily amount is non-negative and the close is positive. -/
theorem dcaStep_nonneg {d : ℚ} {s : DcaState} {b : Bar} {s' : DcaState}
    (hd : 0 ≤ d) (hb : 0 < b.close) (h : dcaStep d s b = .ok s')
    (hs : 0 ≤ s.total_invested ∧ 0 ≤ s.total_bitcoin) :
    0 ≤ s'.total_invested ∧ 0 ≤ s'.total_bitcoin := by
  unfold dcaStep pyDiv at h
  rw [if_neg (ne_of_gt hb)] at h
  simp at h
  subst h
  constructor
  · simpa using add_nonneg hs.1 hd
  · simpa using add_nonneg hs.2 (div_nonneg hd hb.le)

/-- Full characterization of a successful ATH-dip step: the all-time high
is updated from the bar high first, one valuation is appended, and the buy
branch is taken exactly when the close is at or below the dip threshold
computed from the updated high, the accrued cash is positive and the
updated high is positive. -/
theorem athStep_cases {dip daily : ℚ} {s : AthState} {bar : Bar} {s' : AthState}
    (h : athStep dip daily s bar = .ok s') :
    s'.all_time_high = max s.all_time_high bar.high ∧
    s'.portfolio_values.length = s.portfolio_values.length + 1 ∧
    ((bar.close ≤ max s.all_time_high bar.high * (1 - dip / 100) ∧
        0 < s.accumulated_cash + daily ∧ 0 < max s.all_time_high bar.high) →
      s'.accumulated_cash = 0 ∧
      s'.total_invested = s.total_invested + (s.accumulated_cash + daily) ∧
      s'.total_bitcoin = s.total_bitcoin + (s.accumulated_cash + daily) / bar.close ∧
      s'.purchases = s.purchases ++
        [{ date := bar.date, price := bar.close,
           amount_invested := s.accumulated_cash + daily,
           bitcoin_purchased := (s.accumulated_cash + daily) / bar.close,
           all_time_high := max s.all_time_high bar.high,
           dip_percentage :=
             ((max s.all_time_high bar.high - bar.close) / max s.all_time_high bar.high) * 100,
           total_bitcoin := s.total_bitcoin + (s.accumulated_cash + daily) / bar.close,
           total_invested := s.total_invested + (s.accumulated_cash + daily),
           purchase_number := s.purchase_count + 1 }]) ∧
    (¬ (bar.close ≤ max s.all_time_high bar.high * (1 - dip / 100) ∧
        0 < s.accumulated_cash + daily ∧ 0 < max s.all_time_high bar.high) →
      s'.accumulated_cash = s.accumulated_cash + daily ∧
      s'.total_invested = s.total_invested ∧
      s'.total_bitcoin = s.total_bitcoin ∧
      s'.purchases = s.purchases) := by
  simp only [athStep, pyDiv] at h
  by_cases hcond : bar.close ≤ max s.all_time_high bar.high * (1 - dip / 100) ∧
      0 < s.accumulated_cash + daily ∧ 0 < max s.all_time_high bar.high
  · rw [if_pos hcond] at h
    by_cases hc : bar.close = 0
    · simp [hc] at h
    · rw [if_neg hc] at h
      simp at h
      subst h
      exact ⟨rfl, by simp, fun _ => ⟨rfl, rfl, rfl, rfl⟩, fun hn => absurd hcond hn⟩
  · rw [if_neg hcond] at h
    simp at h
    subst h
    exact ⟨rfl, by simp, fun hc => absurd hc hcond, fun _ => ⟨rfl, rfl, rfl, rfl⟩⟩

/-- Full characterization of a successful moving-average step: one
valuation is appended; with no average the day only accrues cash; with an
average the buy branch is taken exactly when the close is strictly below
it and the accrued cash is positive. -/
theorem maStep_cases {daily : ℚ} {s : MaState} {bar : Bar} {om : Option ℚ} {s' : MaState}
    (h : maStep daily s (bar, om) = .ok s') :
    s'.portfolio_values.length = s.portfolio_values.length + 1 ∧
    (om = none → s'.trades = s.trades ∧ s'.accumulated_cash = s.accumulated_cash + daily ∧
       s'.total_invested = s.total_invested ∧ s'.bitcoin_held = s.bitcoin_held) ∧
    (∀ a, om = some a →
      ((bar.close < a ∧ 0 < s.accumulated_cash + daily) →
        s'.accumulated_cash = 0 ∧
        s'.total_invested = s.total_invested + (s.accumulated_cash + daily) ∧
        s'.bitcoin_held = s.bitcoin_held + (s.accumulated_cash + daily) / bar.close ∧
        s'.trades = s.trades ++
          [{ date := bar.date, action := "BUY", price := bar.close,
             amount := (s.accumulated_cash + daily) / bar.close,
             cash_used := s.accumulated_cash + daily }]) ∧
      (¬ (bar.close < a ∧ 0 < s.accumulated_cash + daily) →
        s'.trades = s.trades ∧ s'.accumulated_cash = s.accumulated_cash + daily ∧
        s'.total_invested = s.total_invested ∧ s'.bitcoin_held = s.bitcoin_held)) := by
  cases om with
  | none =>
    simp only [maStep] at h
    simp at h
    subst h
    refine ⟨by simp, fun _ => ⟨rfl, rfl, rfl, rfl⟩, fun a ha => by cases ha⟩
  | some a =>
    simp only [maStep, pyDiv] at h
    by_cases hcond : bar.close < a ∧ 0 < s.accumulated_cash + daily
    · rw [if_pos hcond] at h
      by_cases hc : bar.close = 0
      · simp [hc] at h
      · rw [if_neg hc] at h
        simp at h
        subst h
        refine ⟨by simp, fun hn => Option.noConfusion hn, ?_⟩
        intro a' ha'
        obtain rfl := Option.some.inj ha'
        exact ⟨fun _ => ⟨rfl, rfl, rfl, rfl⟩, fun hn => absurd hcond hn⟩
    · rw [if_neg hcond] at h
      simp at h
      subst h
      refine ⟨by simp, fun hn => Option.noConfusion hn, ?_⟩
      intro a' ha'
      obtain rfl := Option.some.inj ha'
      exact ⟨fun hc => absurd hc hcond, fun _ => ⟨rfl, rfl, rfl, rfl⟩⟩

/-- The DCA loop deploys every day, so a series containing a bar with a
zero close fails with a division-by-zero error. -/
theorem dca_runLoop_zero_close (daily : ℚ) :
    ∀ (l : List Bar) (s : DcaState), (∃ b ∈ l, b.close = 0) →
      runLoop (dcaStep daily) s l = .error .zeroDivision := by
  intro l
  induction l with
  | nil => intro s h; simp at h
  | cons x xs ih =>
    intro s hex
    by_cases hx : x.close = 0
    · have hstep : dcaStep daily s x = .error .zeroDivision := by
        simp [dcaStep, pyDiv, hx]
      simp [runLoop, hstep]
    · have hex' : ∃ b ∈ xs, b.close = 0 := by
        obtain ⟨b, hb, hb0⟩ := hex
        rcases List.mem_cons.mp hb with rfl | hbxs
        · exact absurd hb0 hx
        · exact ⟨b, hbxs, hb0⟩
      simp only [runLoop, dcaStep, pyDiv, if_neg hx]
      exact ih _ hex'

/-- Concrete 3-day series with closes 100, 50, 200 (highs equal to closes). -/
def c9bars : List Bar :=
  [ { date := 0, open_ := 100, high := 100, low := 100, close := 100, volume := 0 },
    { date := 1, open_ := 50, high := 50, low := 50, close := 50, volume := 0 },
    { date := 2, open_ := 200, high := 200, low := 200, close := 200, volume := 0 } ]

/-- A bar with negative prices (close = -1). -/
def negBar : Bar := { date := 0, open_ := -1, high := -1, low := -1, close := -1, volume := 0 }

/-- A bar whose close is exactly 0 while its high is positive. -/
def zeroBar : Bar := { date := 0, open_ := 0, high := 100, low := 0, close := 0, volume := 0 }

/-- A flat bar at price 100 (no dip relative to its own high). -/
def flatBar : Bar := { date := 0, open_ := 100, high := 100, low := 100, close := 100, volume := 0 }

/-- A bar at price 1 everywhere, for trivially computable runs. -/
def oneBar : Bar := { date := 0, open_ := 1, high := 1, low := 1, close := 1, volume := 0 }

/-! ## The claims -/

/-- C1, counterexample: on the empty series the Fixed-Amount backtest does
not return empty sequences and a zero-valued summary; it raises an index
error when reading `data[-1]`. -/
theorem claim1_counterexample : backtest_dca_strategy [] 10 = .error .indexError := rfl

/-- C1, amended: for the empty input series, every backtest run
(Fixed-Amount, Dip-Below-Extreme, Below-Moving-Average) raises an index
error while reading the final bar (`data[-1]`); no event or valuation
sequences and no summary record are returned. -/
theorem claim1_empty_series_raises (daily dip : ℚ) (w : Nat) :
    backtest_dca_strategy [] daily = .error .indexError ∧
    backtest_ath_dip_strategy [] dip daily = .error .indexError ∧
    backtest_moving_average_strategy [] w daily = .error .indexError :=
  ⟨rfl, rfl, rfl⟩

/-- C2, counterexample: a series whose only bar has close = -1 (≤ 0) does
not make the Fixed-Amount run fail; the run completes, dividing by the
negative price and producing a negative holding. -/
theorem claim2_counterexample :
    (backtest_dca_strategy [negBar] 10).map
      (fun r => (r.total_invested, r.total_bitcoin, r.final_value)) =
    .ok ((10 : ℚ), -10, 10) := by
  norm_num [backtest_dca_strategy, runLoop, dcaStep, pyDiv, mkDcaResult, dcaInit, negBar,
    Except.map]

/-- C2, amended: only a close equal to 0 at the moment a deployment
divides by it makes the run fail, with a division-by-zero error that is
propagated immediately (no partial results); a strictly negative close is
not rejected.  For Fixed-Amount every bar deploys, so any series
containing a zero close fails; for the other two strategies the step
fails exactly when the buy trigger fires on a zero close. -/
theorem claim2_zero_close_division :
    (∀ (data : List Bar) (daily : ℚ), (∃ b ∈ data, b.close = 0) →
      backtest_dca_strategy data daily = .error .zeroDivision) ∧
    (∀ (dip daily : ℚ) (s : AthState) (bar : Bar), bar.close = 0 →
      bar.close ≤ max s.all_time_high bar.high * (1 - dip / 100) →
      0 < s.accumulated_cash + daily → 0 < max s.all_time_high bar.high →
      athStep dip daily s bar = .error .zeroDivision) ∧
    (∀ (daily : ℚ) (s : MaState) (bar : Bar) (a : ℚ), bar.close = 0 →
      bar.close < a → 0 < s.accumulated_cash + daily →
      maStep daily s (bar, some a) = .error .zeroDivision) := by
  refine ⟨?_, ?_, ?_⟩
  · intro data daily hex
    simp only [backtest_dca_strategy, dca_runLoop_zero_close daily data dcaInit hex]
  · intro dip daily s bar hc hthr hcash hath
    simp only [athStep, pyDiv, if_pos (And.intro hthr (And.intro hcash hath)), if_pos hc]
  · intro daily s bar a hc hlt hcash
    simp only [maStep, pyDiv, if_pos (And.intro hlt hcash), if_pos hc]

/-- C2, witness: concrete zero-close inputs on which the amended claim
fires for each strategy. -/
theorem claim2_witness :
    ((∃ b ∈ [zeroBar], b.close = 0) ∧
      backtest_dca_strategy [zeroBar] 1 = .error .zeroDivision) ∧
    (zeroBar.close = 0 ∧
      zeroBar.close ≤ max athInit.all_time_high zeroBar.high * (1 - 20 / 100) ∧
      0 < athInit.accumulated_cash + 1 ∧ 0 < max athInit.all_time_high zeroBar.high ∧
      athStep 20 1 athInit zeroBar = .error .zeroDivision) ∧
    (zeroBar.close = 0 ∧ zeroBar.close < 5 ∧ 0 < maInit.accumulated_cash + 1 ∧
      maStep 1 maInit (zeroBar, some 5) = .error .zeroDivision) := by
  have hz : zeroBar.close = 0 := rfl
  have hthr : zeroBar.close ≤ max athInit.all_time_high zeroBar.high * (1 - 20 / 100) := by
    norm_num [zeroBar, athInit]
  have hcash : (0 : ℚ) < athInit.accumulated_cash + 1 := by norm_num [athInit]
  have hath : (0 : ℚ) < max athInit.all_time_high zeroBar.high := by
    norm_num [zeroBar, athInit]
  have hlt : zeroBar.close < (5 : ℚ) := by norm_num [zeroBar]
  have hmc : (0 : ℚ) < maInit.accumulated_cash + 1 := by norm_num [maInit]
  have hex : ∃ b ∈ [zeroBar], b.close = 0 := ⟨zeroBar, by simp, hz⟩
  exact ⟨⟨hex, claim2_zero_close_division.1 [zeroBar] 1 hex⟩,
    ⟨hz, hthr, hcash, hath, claim2_zero_close_division.2.1 20 1 athInit zeroBar hz hthr hcash hath⟩,
    ⟨hz, hlt, hmc, claim2_zero_close_division.2.2 1 maInit zeroBar 5 hz hlt hmc⟩⟩

/-- C9: the Fixed-Amount strategy with daily_investment = 10 on the 3-bar
series with closes 100, 50, 200 produces total_invested = 30,
total_holding = 35/100, final_value = 70 and total_return = 40 (exact
rational arithmetic). -/
theorem claim9_dca_scenario :
    (backtest_dca_strategy c9bars 10).map
      (fun r => (r.total_invested, r.total_bitcoin, r.final_value, r.total_return)) =
    .ok ((30 : ℚ), (35 / 100 : ℚ), 70, 40) := by
  norm_num [backtest_dca_strategy, runLoop, dcaStep, pyDiv, mkDcaResult, dcaInit, c9bars,
    Except.map]

/-- The result of the Fixed-Amount run on the single bar `oneBar` with
daily investment 1, written out. -/
def dcaOneResult : DcaResult :=
  { total_invested := 1, final_value := 1, total_return := 0, return_percentage := 0,
    total_bitcoin := 1, average_purchase_price := 1, final_bitcoin_price := 1,
    daily_investment := 1, number_of_days := 1,
    purchases := [{ date := 0, price := 1, amount_invested := 1, bitcoin_purchased := 1,
                    total_bitcoin := 1, total_invested := 1 }],
    portfolio_values := [1] }

/-- The result of the Dip-Below-Extreme run on the single bar `flatBar`
(dip 20, daily budget 1): no trigger, one unit of idle cash. -/
def athFlatResult : AthResult :=
  { dip_percentage := 20, daily_budget := 1, total_invested := 0, final_value := 1,
    total_return := 0, return_percentage := 0, total_bitcoin := 0,
    average_purchase_price := 0, final_bitcoin_price := 100, final_ath := 100,
    accumulated_cash := 1, number_of_purchases := 0, number_of_days := 1,
    purchases := [],
    portfolio_values := [{ date := 0, price := 100, ath := 100, portfolio_value := 1,
                           total_invested := 0, accumulated_cash := 1,
                           unrealized_return := 0 }] }

/-- The result of the Below-Moving-Average run on the single bar `oneBar`
(window 1, daily budget 1): average equals the close, so no trigger. -/
def maOneResult : MaResult :=
  { total_invested := 0, final_value := 1, total_return := 1, return_percentage := 0,
    trades := [], portfolio_values := [1], moving_average_window := 1,
    bitcoin_held := 0, accumulated_cash := 1, daily_budget := 1, number_of_days := 1 }

/-- C3, counterexample: on a single flat bar with dip 20 and daily budget
1, the Dip-Below-Extreme run reports total_return = 0 while final_value
minus total_invested is 1; the claimed identity fails whenever idle cash
remains. -/
theorem claim3_counterexample :
    (backtest_ath_dip_strategy [flatBar] 20 1).map
      (fun r => (r.total_return, r.final_value - r.total_invested)) = .ok ((0 : ℚ), 1) ∧
    (0 : ℚ) ≠ 1 := by
  constructor
  · norm_num [backtest_ath_dip_strategy, runLoop, athStep, pyDiv, mkAthResult, athInit,
      flatBar, Except.map]
  · norm_num

/-- C3, amended: in every run, final_value = accumulated_cash +
total_holding * last close (the Fixed-Amount strategy keeps no idle cash,
so there final_value = total_holding * last close); for Fixed-Amount and
Below-Moving-Average, total_return = final_value - total_invested, but
the Dip-Below-Extreme strategy additionally subtracts the idle cash:
total_return = final_value - total_invested - accumulated_cash. -/
theorem claim3_return_accounting :
    (∀ (data : List Bar) (daily : ℚ) (r : DcaResult) (fb : Bar),
      backtest_dca_strategy data daily = .ok r → data.getLast? = some fb →
      r.final_value = r.total_bitcoin * fb.close ∧
      r.total_return = r.final_value - r.total_invested) ∧
    (∀ (data : List Bar) (w : Nat) (daily : ℚ) (r : MaResult) (fb : Bar),
      backtest_moving_average_strategy data w daily = .ok r → data.getLast? = some fb →
      r.final_value = r.accumulated_cash + r.bitcoin_held * fb.close ∧
      r.total_return = r.final_value - r.total_invested) ∧
    (∀ (data : List Bar) (dip daily : ℚ) (r : AthResult) (fb : Bar),
      backtest_ath_dip_strategy data dip daily = .ok r → data.getLast? = some fb →
      r.final_value = r.accumulated_cash + r.total_bitcoin * fb.close ∧
      r.total_return = r.final_value - r.total_invested - r.accumulated_cash) := by
  refine ⟨?_, ?_, ?_⟩
  · intro data daily r fb h hlast
    obtain ⟨s, fb', hloop, hlast', hr⟩ := backtest_dca_ok h
    rw [hlast] at hlast'
    obtain rfl := Option.some.inj hlast'
    subst hr
    simp [mkDcaResult]
  · intro data w daily r fb h hlast
    obtain ⟨mas, s, fb', hmas, hloop, hlast', hr⟩ := backtest_ma_ok h
    rw [hlast] at hlast'
    obtain rfl := Option.some.inj hlast'
    subst hr
    simp [mkMaResult]
  · intro data dip daily r fb h hlast
    obtain ⟨s, fb', hloop, hlast', hr⟩ := backtest_ath_ok h
    rw [hlast] at hlast'
    obtain rfl := Option.some.inj hlast'
    subst hr
    simp [mkAthResult]

/-- C3, witness: the amended identities instantiated on concrete one-bar
runs of each strategy. -/
theorem claim3_witness :
    (backtest_dca_strategy [oneBar] 1 = .ok dcaOneResult ∧
      [oneBar].getLast? = some oneBar ∧
      dcaOneResult.final_value = dcaOneResult.total_bitcoin * oneBar.close ∧
      dcaOneResult.total_return = dcaOneResult.final_value - dcaOneResult.total_invested) ∧
    (backtest_moving_average_strategy [oneBar] 1 1 = .ok maOneResult ∧
      maOneResult.final_value = maOneResult.accumulated_cash +
        maOneResult.bitcoin_held * oneBar.close ∧
      maOneResult.total_return = maOneResult.final_value - maOneResult.total_invested) ∧
    (backtest_ath_dip_strategy [flatBar] 20 1 = .ok athFlatResult ∧
      athFlatResult.final_value = athFlatResult.accumulated_cash +
        athFlatResult.total_bitcoin * flatBar.close ∧
      athFlatResult.total_return = athFlatResult.final_value -
        athFlatResult.total_invested - athFlatResult.accumulated_cash) := by
  have h1 : backtest_dca_strategy [oneBar] 1 = .ok dcaOneResult := by
    norm_num [backtest_dca_strategy, runLoop, dcaStep, pyDiv, mkDcaResult, dcaInit,
      oneBar, dcaOneResult]
  have h2 : backtest_moving_average_strategy [oneBar] 1 1 = .ok maOneResult := by
    norm_num [backtest_moving_average_strategy, calculate_moving_average, mapLoop,
      runLoop, maStep, pyDiv, mkMaResult, maInit, oneBar, maOneResult, List.range_succ]
  have h3 : backtest_ath_dip_strategy [flatBar] 20 1 = .ok athFlatResult := by
    norm_num [backtest_ath_dip_strategy, runLoop, athStep, pyDiv, mkAthResult, athInit,
      flatBar, athFlatResult]
  have hl : [oneBar].getLast? = some oneBar := rfl
  have hl3 : [flatBar].getLast? = some flatBar := rfl
  obtain ⟨ha, hb⟩ := claim3_return_accounting.1 [oneBar] 1 dcaOneResult oneBar h1 hl
  obtain ⟨hc, hd⟩ := claim3_return_accounting.2.1 [oneBar] 1 1 maOneResult oneBar h2 hl
  obtain ⟨he, hf⟩ := claim3_return_accounting.2.2 [flatBar] 20 1 athFlatResult flatBar h3 hl3
  exact ⟨⟨h1, hl, ha, hb⟩, ⟨h2, hc, hd⟩, ⟨h3, he, hf⟩⟩

/-- A successful ATH-dip step appends one valuation and at most one
purchase dated with the consumed bar. -/
theorem athStep_shape {dip daily : ℚ} {s : AthState} {bar : Bar} {s' : AthState}
    (h : athStep dip daily s bar = .ok s') :
    s'.portfolio_values.length = s.portfolio_values.length + 1 ∧
    (s'.purchases = s.purchases ∨
      ∃ e, s'.purchases = s.purchases ++ [e] ∧ e.date = bar.date) := by
  obtain ⟨-, hpv, hbuy, hskip⟩ := athStep_cases h
  refine ⟨hpv, ?_⟩
  by_cases hcond : bar.close ≤ max s.all_time_high bar.high * (1 - dip / 100) ∧
      0 < s.accumulated_cash + daily ∧ 0 < max s.all_time_high bar.high
  · exact Or.inr ⟨_, (hbuy hcond).2.2.2, rfl⟩
  · exact Or.inl (hskip hcond).2.2.2

/-- A successful moving-average step appends one valuation and at most one
trade dated with the consumed bar. -/
theorem maStep_shape {daily : ℚ} {s : MaState} {p : Bar × Option ℚ} {s' : MaState}
    (h : maStep daily s p = .ok s') :
    s'.portfolio_values.length = s.portfolio_values.length + 1 ∧
    (s'.trades = s.trades ∨
      ∃ e, s'.trades = s.trades ++ [e] ∧ e.date = p.1.date) := by
  obtain ⟨bar, om⟩ := p
  obtain ⟨hpv, hnone, hsome⟩ := maStep_cases h
  refine ⟨hpv, ?_⟩
  cases om with
  | none => exact Or.inl (hnone rfl).1
  | some a =>
    by_cases hcond : bar.close < a ∧ 0 < s.accumulated_cash + daily
    · exact Or.inr ⟨_, ((hsome a rfl).1 hcond).2.2.2, rfl⟩
    · exact Or.inl ((hsome a rfl).2 hcond).1

/-- A successful ATH-dip step preserves the conservation invariant. -/
theorem athStep_conserve {dip daily : ℚ} {s : AthState} {bar : Bar} {s' : AthState}
    (h : athStep dip daily s bar = .ok s')
    (hs : s.total_invested = (s.purchases.map AthPurchase.amount_invested).sum ∧
      s.total_bitcoin = (s.purchases.map AthPurchase.bitcoin_purchased).sum) :
    s'.total_invested = (s'.purchases.map AthPurchase.amount_invested).sum ∧
    s'.total_bitcoin = (s'.purchases.map AthPurchase.bitcoin_purchased).sum := by
  obtain ⟨-, -, hbuy, hskip⟩ := athStep_cases h
  by_cases hcond : bar.close ≤ max s.all_time_high bar.high * (1 - dip / 100) ∧
      0 < s.accumulated_cash + daily ∧ 0 < max s.all_time_high bar.high
  · obtain ⟨-, hti, htb, hpur⟩ := hbuy hcond
    constructor
    · rw [hti, hpur]; simp [hs.1]
    · rw [htb, hpur]; simp [hs.2]
  · obtain ⟨-, hti, htb, hpur⟩ := hskip hcond
    rw [hti, htb, hpur]
    exact hs

/-- A successful moving-average step preserves the conservation invariant. -/
theorem maStep_conserve {daily : ℚ} {s : MaState} {p : Bar × Option ℚ} {s' : MaState}
    (h : maStep daily s p = .ok s')
    (hs : s.total_invested = (s.trades.map MaTrade.cash_used).sum ∧
      s.bitcoin_held = (s.trades.map MaTrade.amount).sum) :
    s'.total_invested = (s'.trades.map MaTrade.cash_used).sum ∧
    s'.bitcoin_held = (s'.trades.map MaTrade.amount).sum := by
  obtain ⟨bar, om⟩ := p
  obtain ⟨-, hnone, hsome⟩ := maStep_cases h
  cases om with
  | none =>
    obtain ⟨htr, -, hti, hbh⟩ := hnone rfl
    rw [htr, hti, hbh]
    exact hs
  | some a =>
    by_cases hcond : bar.close < a ∧ 0 < s.accumulated_cash + daily
    · obtain ⟨-, hti, hbh, htr⟩ := (hsome a rfl).1 hcond
      constructor
      · rw [hti, htr]; simp [hs.1]
      · rw [hbh, htr]; simp [hs.2]
    · obtain ⟨htr, -, hti, hbh⟩ := (hsome a rfl).2 hcond
      rw [htr, hti, hbh]
      exact hs

/-- A successful ATH-dip step keeps invested capital and holdings
non-negative when the close is positive. -/
theorem athStep_nonneg {dip daily : ℚ} {s : AthState} {bar : Bar} {s' : AthState}
    (hb : 0 < bar.close) (h : athStep dip daily s bar = .ok s')
    (hs : 0 ≤ s.total_invested ∧ 0 ≤ s.total_bitcoin) :
    0 ≤ s'.total_invested ∧ 0 ≤ s'.total_bitcoin := by
  obtain ⟨-, -, hbuy, hskip⟩ := athStep_cases h
  by_cases hcond : bar.close ≤ max s.all_time_high bar.high * (1 - dip / 100) ∧
      0 < s.accumulated_cash + daily ∧ 0 < max s.all_time_high bar.high
  · obtain ⟨-, hti, htb, -⟩ := hbuy hcond
    constructor
    · rw [hti]; exact add_nonneg hs.1 hcond.2.1.le
    · rw [htb]; exact add_nonneg hs.2 (div_nonneg hcond.2.1.le hb.le)
  · obtain ⟨-, hti, htb, -⟩ := hskip hcond
    rw [hti, htb]
    exact hs

/-- A successful moving-average step keeps invested capital and holdings
non-negative when the close is positive. -/
theorem maStep_nonneg {daily : ℚ} {s : MaState} {p : Bar × Option ℚ} {s' : MaState}
    (hb : 0 < p.1.close) (h : maStep daily s p = .ok s')
    (hs : 0 ≤ s.total_invested ∧ 0 ≤ s.bitcoin_held) :
    0 ≤ s'.total_invested ∧ 0 ≤ s'.bitcoin_held := by
  obtain ⟨bar, om⟩ := p
  obtain ⟨-, hnone, hsome⟩ := maStep_cases h
  cases om with
  | none =>
    obtain ⟨-, -, hti, hbh⟩ := hnone rfl
    rw [hti, hbh]
    exact hs
  | some a =>
    by_cases hcond : bar.close < a ∧ 0 < s.accumulated_cash + daily
    · obtain ⟨-, hti, hbh, -⟩ := (hsome a rfl).1 hcond
      constructor
      · rw [hti]; exact add_nonneg hs.1 hcond.2.le
      · rw [hbh]; exact add_nonneg hs.2 (div_nonneg hcond.2.le hb.le)
    · obtain ⟨-, -, hti, hbh⟩ := (hsome a rfl).2 hcond
      rw [hti, hbh]
      exact hs

/-- A successful ATH-dip step preserves the purchase-record bounds: every
recorded purchase has a positive recorded all-time high, a price at or
below the threshold fraction of that high, and a recorded dip percentage
of at least the configured one. -/
theorem athStep_bounds {dip daily : ℚ} {s : AthState} {bar : Bar} {s' : AthState}
    (h : athStep dip daily s bar = .ok s')
    (hP : ∀ p ∈ s.purchases, 0 < p.all_time_high ∧
      p.price ≤ (1 - dip / 100) * p.all_time_high ∧ dip ≤ p.dip_percentage) :
    ∀ p ∈ s'.purchases, 0 < p.all_time_high ∧
      p.price ≤ (1 - dip / 100) * p.all_time_high ∧ dip ≤ p.dip_percentage := by
  obtain ⟨-, -, hbuy, hskip⟩ := athStep_cases h
  by_cases hcond : bar.close ≤ max s.all_time_high bar.high * (1 - dip / 100) ∧
      0 < s.accumulated_cash + daily ∧ 0 < max s.all_time_high bar.high
  · obtain ⟨-, -, -, hpur⟩ := hbuy hcond
    rw [hpur]
    intro p hp
    rcases List.mem_append.mp hp with hp | hp
    · exact hP p hp
    · obtain ⟨hthr, hcash, hath⟩ := hcond
      simp only [List.mem_singleton] at hp
      subst hp
      refine ⟨hath, by simpa [mul_comm] using hthr, ?_⟩
      simp only
      rw [div_mul_eq_mul_div, le_div_iff₀ hath]
      nlinarith [hthr]
  · rw [(hskip hcond).2.2.2]
    exact hP

/-- The DCA loop state after the single bar `oneBar` with daily investment 1. -/
def dcaOneState : DcaState :=
  { total_invested := 1, total_bitcoin := 1,
    purchases := [{ date := 0, price := 1, amount_invested := 1, bitcoin_purchased := 1,
                    total_bitcoin := 1, total_invested := 1 }],
    portfolio_values := [1] }

/-- A bar with high 10 and close 8: exactly at the 20 percent dip threshold. -/
def dipBar : Bar := { date := 0, open_ := 10, high := 10, low := 8, close := 8, volume := 0 }

/-- The ATH-dip loop state after the single bar `dipBar` with dip 20 and
daily budget 1: the trigger fires and all cash is deployed. -/
def athDipState : AthState :=
  { all_time_high := 10, accumulated_cash := 0, total_invested := 1,
    total_bitcoin := 1 / 8,
    purchases := [{ date := 0, price := 8, amount_invested := 1,
                    bitcoin_purchased := 1 / 8, all_time_high := 10, dip_percentage := 20,
                    total_bitcoin := 1 / 8, total_invested := 1, purchase_number := 1 }],
    portfolio_values := [{ date := 0, price := 8, ath := 10, portfolio_value := 1,
                           total_invested := 1, accumulated_cash := 0,
                           unrealized_return := 0 }],
    purchase_count := 1 }

/-- The moving-average loop state after one bar `oneBar` paired with
average 2 and daily budget 1: the trigger fires and all cash is deployed. -/
def maBuyState : MaState :=
  { accumulated_cash := 0, bitcoin_held := 1, total_invested := 1,
    trades := [{ date := 0, action := "BUY", price := 1, amount := 1, cash_used := 1 }],
    portfolio_values := [1] }

/-- C4: for every strategy and after every processed bar (the state after
bar i of a run on `data` is the loop state over `data.take i`),
total_invested equals the sum of the cash amounts of the allocation
events emitted so far and the holdings equal the sum of the units
acquired, exactly. -/
theorem claim4_conservation :
    (∀ (daily : ℚ) (data : List Bar) (i : Nat) (s : DcaState),
      runLoop (dcaStep daily) dcaInit (data.take i) = .ok s →
      s.total_invested = (s.purchases.map DcaPurchase.amount_invested).sum ∧
      s.total_bitcoin = (s.purchases.map DcaPurchase.bitcoin_purchased).sum) ∧
    (∀ (dip daily : ℚ) (data : List Bar) (i : Nat) (s : AthState),
      runLoop (athStep dip daily) athInit (data.take i) = .ok s →
      s.total_invested = (s.purchases.map AthPurchase.amount_invested).sum ∧
      s.total_bitcoin = (s.purchases.map AthPurchase.bitcoin_purchased).sum) ∧
    (∀ (daily : ℚ) (pairs : List (Bar × Option ℚ)) (i : Nat) (s : MaState),
      runLoop (maStep daily) maInit (pairs.take i) = .ok s →
      s.total_invested = (s.trades.map MaTrade.cash_used).sum ∧
      s.bitcoin_held = (s.trades.map MaTrade.amount).sum) := by
  refine ⟨?_, ?_, ?_⟩
  · intro daily data i s h
    exact runLoop_inv
      (fun s => s.total_invested = (s.purchases.map DcaPurchase.amount_invested).sum ∧
        s.total_bitcoin = (s.purchases.map DcaPurchase.bitcoin_purchased).sum)
      (fun _ => True) (dcaStep daily)
      (fun s x s' _ hP hs => dcaStep_conserve hs hP)
      (data.take i) dcaInit s (fun _ _ => trivial) (by simp [dcaInit]) h
  · intro dip daily data i s h
    exact runLoop_inv
      (fun s => s.total_invested = (s.purchases.map AthPurchase.amount_invested).sum ∧
        s.total_bitcoin = (s.purchases.map AthPurchase.bitcoin_purchased).sum)
      (fun _ => True) (athStep dip daily)
      (fun s x s' _ hP hs => athStep_conserve hs hP)
      (data.take i) athInit s (fun _ _ => trivial) (by simp [athInit]) h
  · intro daily pairs i s h
    exact runLoop_inv
      (fun s => s.total_invested = (s.trades.map MaTrade.cash_used).sum ∧
        s.bitcoin_held = (s.trades.map MaTrade.amount).sum)
      (fun _ => True) (maStep daily)
      (fun s x s' _ hP hs => maStep_conserve hs hP)
      (pairs.take i) maInit s (fun _ _ => trivial) (by simp [maInit]) h

/-- C4, witness: the conservation identities on concrete one-bar runs of
each strategy, each with one allocation event. -/
theorem claim4_witness :
    (runLoop (dcaStep 1) dcaInit ([oneBar].take 1) = .ok dcaOneState ∧
      dcaOneState.total_invested =
        (dcaOneState.purchases.map DcaPurchase.amount_invested).sum ∧
      dcaOneState.total_bitcoin =
        (dcaOneState.purchases.map DcaPurchase.bitcoin_purchased).sum) ∧
    (runLoop (athStep 20 1) athInit ([dipBar].take 1) = .ok athDipState ∧
      athDipState.total_invested =
        (athDipState.purchases.map AthPurchase.amount_invested).sum ∧
      athDipState.total_bitcoin =
        (athDipState.purchases.map AthPurchase.bitcoin_purchased).sum) ∧
    (runLoop (maStep 1) maInit ([(oneBar, some 2)].take 1) = .ok maBuyState ∧
      maBuyState.total_invested = (maBuyState.trades.map MaTrade.cash_used).sum ∧
      maBuyState.bitcoin_held = (maBuyState.trades.map MaTrade.amount).sum) := by
  have h1 : runLoop (dcaStep 1) dcaInit ([oneBar].take 1) = .ok dcaOneState := by
    norm_num [runLoop, dcaStep, pyDiv, dcaInit, oneBar, dcaOneState]
  have h2 : runLoop (athStep 20 1) athInit ([dipBar].take 1) = .ok athDipState := by
    norm_num [runLoop, athStep, pyDiv, athInit, dipBar, athDipState]
  have h3 : runLoop (maStep 1) maInit ([(oneBar, some 2)].take 1) = .ok maBuyState := by
    norm_num [runLoop, maStep, pyDiv, maInit, oneBar, maBuyState]
  obtain ⟨a1, a2⟩ := claim4_conservation.1 1 [oneBar] 1 dcaOneState h1
  obtain ⟨b1, b2⟩ := claim4_conservation.2.1 20 1 [dipBar] 1 athDipState h2
  obtain ⟨c1, c2⟩ := claim4_conservation.2.2 1 [(oneBar, some 2)] 1 maBuyState h3
  exact ⟨⟨h1, a1, a2⟩, ⟨h2, b1, b2⟩, ⟨h3, c1, c2⟩⟩

/-- C5: in every successful ATH-dip step the extreme is updated to
max(running_extreme, bar.high) before the threshold
running_extreme * (1 - dip_fraction) is computed from it; the entire
accrued cash is deployed (an event is emitted) exactly when
close ≤ threshold, the accrued cash is positive and the updated extreme
is positive, after which accumulated_cash is exactly 0; otherwise cash
keeps accruing and no event is emitted. -/
theorem claim5_dip_trigger :
    ∀ (dip daily : ℚ) (s : AthState) (bar : Bar) (s' : AthState),
      athStep dip daily s bar = .ok s' →
      s'.all_time_high = max s.all_time_high bar.high ∧
      ((s'.purchases.length = s.purchases.length + 1) ↔
        (bar.close ≤ s'.all_time_high * (1 - dip / 100) ∧
          0 < s.accumulated_cash + daily ∧ 0 < s'.all_time_high)) ∧
      ((bar.close ≤ s'.all_time_high * (1 - dip / 100) ∧
          0 < s.accumulated_cash + daily ∧ 0 < s'.all_time_high) →
        s'.accumulated_cash = 0 ∧
        s'.total_invested = s.total_invested + (s.accumulated_cash + daily) ∧
        ∃ e, s'.purchases = s.purchases ++ [e] ∧
          e.amount_invested = s.accumulated_cash + daily) ∧
      (¬ (bar.close ≤ s'.all_time_high * (1 - dip / 100) ∧
          0 < s.accumulated_cash + daily ∧ 0 < s'.all_time_high) →
        s'.accumulated_cash = s.accumulated_cash + daily ∧
        s'.purchases = s.purchases) := by
  intro dip daily s bar s' h
  obtain ⟨hath, hpv, hbuy, hskip⟩ := athStep_cases h
  rw [hath]
  refine ⟨rfl, ?_, ?_, ?_⟩
  · by_cases hcond : bar.close ≤ max s.all_time_high bar.high * (1 - dip / 100) ∧
        0 < s.accumulated_cash + daily ∧ 0 < max s.all_time_high bar.high
    · rw [(hbuy hcond).2.2.2]
      exact iff_of_true (by simp) hcond
    · rw [(hskip hcond).2.2.2]
      exact iff_of_false (by simp) hcond
  · intro hcond
    obtain ⟨hc, hti, -, hpur⟩ := hbuy hcond
    exact ⟨hc, hti, _, hpur, rfl⟩
  · intro hn
    obtain ⟨hc, -, -, hpur⟩ := hskip hn
    exact ⟨hc, hpur⟩

/-- C5, witness: the trigger fires on `dipBar` (close exactly at the
threshold) from the initial state, deploying the whole accrued budget. -/
theorem claim5_witness :
    athStep 20 1 athInit dipBar = .ok athDipState ∧
    athDipState.all_time_high = max athInit.all_time_high dipBar.high ∧
    athDipState.accumulated_cash = 0 ∧
    athDipState.purchases.length = athInit.purchases.length + 1 := by
  have h : athStep 20 1 athInit dipBar = .ok athDipState := by
    norm_num [athStep, pyDiv, athInit, dipBar, athDipState]
  have c := claim5_dip_trigger 20 1 athInit dipBar athDipState h
  have hcond : dipBar.close ≤ athDipState.all_time_high * (1 - 20 / 100) ∧
      0 < athInit.accumulated_cash + 1 ∧ 0 < athDipState.all_time_high := by
    norm_num [athInit, dipBar, athDipState]
  exact ⟨h, c.1, (c.2.2.1 hcond).1, c.2.1.mpr hcond⟩

/-- C7: every successful run emits exactly one valuation per input bar, in
input order, and its allocation events are dated by a sublist of the bar
dates (so they form a possibly empty subsequence of the bars in the same
chronological order, and there are at most as many events as bars). -/
theorem claim7_cardinality :
    (∀ (data : List Bar) (daily : ℚ) (r : DcaResult),
      backtest_dca_strategy data daily = .ok r →
      r.portfolio_values.length = data.length ∧
      List.Sublist (r.purchases.map DcaPurchase.date) (data.map Bar.date) ∧
      r.purchases.length ≤ data.length) ∧
    (∀ (data : List Bar) (dip daily : ℚ) (r : AthResult),
      backtest_ath_dip_strategy data dip daily = .ok r →
      r.portfolio_values.length = data.length ∧
      List.Sublist (r.purchases.map AthPurchase.date) (data.map Bar.date) ∧
      r.purchases.length ≤ data.length) ∧
    (∀ (data : List Bar) (w : Nat) (daily : ℚ) (r : MaResult),
      backtest_moving_average_strategy data w daily = .ok r →
      r.portfolio_values.length = data.length ∧
      List.Sublist (r.trades.map MaTrade.date) (data.map Bar.date) ∧
      r.trades.length ≤ data.length) := by
  refine ⟨?_, ?_, ?_⟩
  · intro data daily r h
    obtain ⟨s, fb, hloop, hlast, hr⟩ := backtest_dca_ok h
    subst hr
    obtain ⟨hlen, es, hes, hsub⟩ := runLoop_shape (fun s => s.portfolio_values)
      (fun s => s.purchases) DcaPurchase.date Bar.date (dcaStep daily)
      (fun s x s' hs => dcaStep_shape hs) data dcaInit s hloop
    have hes' : s.purchases = es := by simpa [dcaInit] using hes
    have hlsub := hsub.length_le
    rw [List.length_map, List.length_map] at hlsub
    exact ⟨by simpa [mkDcaResult, dcaInit] using hlen,
      by simpa [mkDcaResult, hes'] using hsub,
      by simpa [mkDcaResult, hes'] using hlsub⟩
  · intro data dip daily r h
    obtain ⟨s, fb, hloop, hlast, hr⟩ := backtest_ath_ok h
    subst hr
    obtain ⟨hlen, es, hes, hsub⟩ := runLoop_shape (fun s => s.portfolio_values)
      (fun s => s.purchases) AthPurchase.date Bar.date (athStep dip daily)
      (fun s x s' hs => athStep_shape hs) data athInit s hloop
    have hes' : s.purchases = es := by simpa [athInit] using hes
    have hlsub := hsub.length_le
    rw [List.length_map, List.length_map] at hlsub
    exact ⟨by simpa [mkAthResult, athInit] using hlen,
      by simpa [mkAthResult, hes'] using hsub,
      by simpa [mkAthResult, hes'] using hlsub⟩
  · intro data w daily r h
    obtain ⟨mas, s, fb, hmas, hloop, hlast, hr⟩ := backtest_ma_ok h
    subst hr
    have hmlen : mas.length = data.length := by
      simpa [List.length_range] using
        mapLoop_length _ (List.range data.length) mas hmas
    obtain ⟨hlen, es, hes, hsub⟩ := runLoop_shape (fun s => s.portfolio_values)
      (fun s => s.trades) MaTrade.date (fun p => p.1.date) (maStep daily)
      (fun s x s' hs => maStep_shape hs) (data.zip mas) maInit s hloop
    have hes' : s.trades = es := by simpa [maInit] using hes
    have hzip : (data.zip mas).length = data.length := by
      rw [List.length_zip, hmlen, min_self]
    have hdates : (data.zip mas).map (fun p => p.1.date) = data.map Bar.date := by
      have h1 : (data.zip mas).map (fun p => p.1.date) =
          (List.map Prod.fst (data.zip mas)).map Bar.date := by
        rw [List.map_map]
        rfl
      rw [h1, List.map_fst_zip data mas (le_of_eq hmlen.symm)]
    rw [hdates] at hsub
    have hlsub := hsub.length_le
    rw [List.length_map, List.length_map] at hlsub
    exact ⟨by simpa [mkMaResult, maInit, hzip] using hlen,
      by simpa [mkMaResult, hes'] using hsub,
      by simpa [mkMaResult, hes'] using hlsub⟩

/-- C7, witness: the cardinality facts on a concrete successful run of
each strategy. -/
theorem claim7_witness :
    (backtest_dca_strategy [oneBar] 1 = .ok dcaOneResult ∧
      dcaOneResult.portfolio_values.length = [oneBar].length ∧
      List.Sublist (dcaOneResult.purchases.map DcaPurchase.date) ([oneBar].map Bar.date) ∧
      dcaOneResult.purchases.length ≤ [oneBar].length) ∧
    (backtest_ath_dip_strategy [flatBar] 20 1 = .ok athFlatResult ∧
      athFlatResult.portfolio_values.length = [flatBar].length ∧
      List.Sublist (athFlatResult.purchases.map AthPurchase.date) ([flatBar].map Bar.date) ∧
      athFlatResult.purchases.length ≤ [flatBar].length) ∧
    (backtest_moving_average_strategy [oneBar] 1 1 = .ok maOneResult ∧
      maOneResult.portfolio_values.length = [oneBar].length ∧
      List.Sublist (maOneResult.trades.map MaTrade.date) ([oneBar].map Bar.date) ∧
      maOneResult.trades.length ≤ [oneBar].length) := by
  have h1 : backtest_dca_strategy [oneBar] 1 = .ok dcaOneResult := by
    norm_num [backtest_dca_strategy, runLoop, dcaStep, pyDiv, mkDcaResult, dcaInit,
      oneBar, dcaOneResult]
  have h2 : backtest_ath_dip_strategy [flatBar] 20 1 = .ok athFlatResult := by
    norm_num [backtest_ath_dip_strategy, runLoop, athStep, pyDiv, mkAthResult, athInit,
      flatBar, athFlatResult]
  have h3 : backtest_moving_average_strategy [oneBar] 1 1 = .ok maOneResult := by
    norm_num [backtest_moving_average_strategy, calculate_moving_average, mapLoop,
      runLoop, maStep, pyDiv, mkMaResult, maInit, oneBar, maOneResult, List.range_succ]
  obtain ⟨a1, a2, a3⟩ := claim7_cardinality.1 [oneBar] 1 dcaOneResult h1
  obtain ⟨b1, b2, b3⟩ := claim7_cardinality.2.1 [flatBar] 20 1 athFlatResult h2
  obtain ⟨c1, c2, c3⟩ := claim7_cardinality.2.2 [oneBar] 1 1 maOneResult h3
  exact ⟨⟨h1, a1, a2, a3⟩, ⟨h2, b1, b2, b3⟩, ⟨h3, c1, c2, c3⟩⟩

/-- C8: in every run obeying the engine contract (non-negative daily
amount, positive closes), a zero total_invested reports
return_percentage = 0 and a zero holding reports a 0 average cost basis
(no division-by-zero error is raised: the guarded branch is taken);
otherwise the reported metrics are exactly total_return / total_invested
* 100 and total_invested / total_holding.  The Below-Moving-Average
summary reports no cost basis, so only its return percentage is
constrained. -/
theorem claim8_zero_guards :
    (∀ (data : List Bar) (daily : ℚ) (r : DcaResult), 0 ≤ daily →
      (∀ b ∈ data, 0 < b.close) → backtest_dca_strategy data daily = .ok r →
      (r.total_invested = 0 → r.return_percentage = 0) ∧
      (r.total_bitcoin = 0 → r.average_purchase_price = 0) ∧
      (r.total_invested ≠ 0 →
        r.return_percentage = r.total_return / r.total_invested * 100) ∧
      (r.total_bitcoin ≠ 0 →
        r.average_purchase_price = r.total_invested / r.total_bitcoin)) ∧
    (∀ (data : List Bar) (dip daily : ℚ) (r : AthResult), 0 ≤ daily →
      (∀ b ∈ data, 0 < b.close) → backtest_ath_dip_strategy data dip daily = .ok r →
      (r.total_invested = 0 → r.return_percentage = 0) ∧
      (r.total_bitcoin = 0 → r.average_purchase_price = 0) ∧
      (r.total_invested ≠ 0 →
        r.return_percentage = r.total_return / r.total_invested * 100) ∧
      (r.total_bitcoin ≠ 0 →
        r.average_purchase_price = r.total_invested / r.total_bitcoin)) ∧
    (∀ (data : List Bar) (w : Nat) (daily : ℚ) (r : MaResult), 0 ≤ daily →
      (∀ b ∈ data, 0 < b.close) →
      backtest_moving_average_strategy data w daily = .ok r →
      (r.total_invested = 0 → r.return_percentage = 0) ∧
      (r.total_invested ≠ 0 →
        r.return_percentage = r.total_return / r.total_invested * 100)) := by
  refine ⟨?_, ?_, ?_⟩
  · intro data daily r hd hpos h
    obtain ⟨s, fb, hloop, hlast, hr⟩ := backtest_dca_ok h
    subst hr
    have hinv : 0 ≤ s.total_invested ∧ 0 ≤ s.total_bitcoin :=
      runLoop_inv (fun s => 0 ≤ s.total_invested ∧ 0 ≤ s.total_bitcoin)
        (fun b => 0 < b.close) (dcaStep daily)
        (fun s x s' hQ hP hs => dcaStep_nonneg hd hQ hs hP)
        data dcaInit s hpos (by simp [dcaInit]) hloop
    refine ⟨?_, ?_, ?_, ?_⟩
    · intro h0
      simp only [mkDcaResult] at h0 ⊢
      rw [h0]
      simp
    · intro h0
      simp only [mkDcaResult] at h0 ⊢
      rw [h0]
      simp
    · intro hne
      simp only [mkDcaResult] at hne ⊢
      rw [if_pos (lt_of_le_of_ne hinv.1 (Ne.symm hne))]
    · intro hne
      simp only [mkDcaResult] at hne ⊢
      rw [if_pos (lt_of_le_of_ne hinv.2 (Ne.symm hne))]
  · intro data dip daily r hd hpos h
    obtain ⟨s, fb, hloop, hlast, hr⟩ := backtest_ath_ok h
    subst hr
    have hinv : 0 ≤ s.total_invested ∧ 0 ≤ s.total_bitcoin :=
      runLoop_inv (fun s => 0 ≤ s.total_invested ∧ 0 ≤ s.total_bitcoin)
        (fun b => 0 < b.close) (athStep dip daily)
        (fun s x s' hQ hP hs => athStep_nonneg hQ hs hP)
        data athInit s hpos (by simp [athInit]) hloop
    refine ⟨?_, ?_, ?_, ?_⟩
    · intro h0
      simp only [mkAthResult] at h0 ⊢
      rw [h0]
      simp
    · intro h0
      simp only [mkAthResult] at h0 ⊢
      rw [h0]
      simp
    · intro hne
      simp only [mkAthResult] at hne ⊢
      rw [if_pos (lt_of_le_of_ne hinv.1 (Ne.symm hne))]
    · intro hne
      simp only [mkAthResult] at hne ⊢
      rw [if_pos (lt_of_le_of_ne hinv.2 (Ne.symm hne))]
  · intro data w daily r hd hpos h
    obtain ⟨mas, s, fb, hmas, hloop, hlast, hr⟩ := backtest_ma_ok h
    subst hr
    have hinv : 0 ≤ s.total_invested ∧ 0 ≤ s.bitcoin_held :=
      runLoop_inv (fun s => 0 ≤ s.total_invested ∧ 0 ≤ s.bitcoin_held)
        (fun p : Bar × Option ℚ => 0 < p.1.close) (maStep daily)
        (fun s x s' hQ hP hs => maStep_nonneg hQ hs hP)
        (data.zip mas) maInit s
        (fun p hp => hpos p.1 (List.of_mem_zip (by rwa [← Prod.mk.eta (p := p)] at hp)).1)
        (by simp [maInit]) hloop
    refine ⟨?_, ?_⟩
    · intro h0
      simp only [mkMaResult] at h0 ⊢
      rw [h0]
      simp
    · intro hne
      simp only [mkMaResult] at hne ⊢
      rw [if_pos (lt_of_le_of_ne hinv.1 (Ne.symm hne))]

/-- C8, witness: on a concrete deployed run the unguarded formulas hold,
and on concrete never-deployed runs the guarded zero defaults hold. -/
theorem claim8_witness :
    ((0 : ℚ) ≤ 1 ∧ (∀ b ∈ [oneBar], 0 < b.close) ∧
      backtest_dca_strategy [oneBar] 1 = .ok dcaOneResult ∧
      dcaOneResult.total_invested ≠ 0 ∧
      dcaOneResult.return_percentage =
        dcaOneResult.total_return / dcaOneResult.total_invested * 100 ∧
      dcaOneResult.total_bitcoin ≠ 0 ∧
      dcaOneResult.average_purchase_price =
        dcaOneResult.total_invested / dcaOneResult.total_bitcoin) ∧
    ((∀ b ∈ [flatBar], 0 < b.close) ∧
      backtest_ath_dip_strategy [flatBar] 20 1 = .ok athFlatResult ∧
      athFlatResult.total_invested = 0 ∧ athFlatResult.return_percentage = 0 ∧
      athFlatResult.total_bitcoin = 0 ∧ athFlatResult.average_purchase_price = 0) ∧
    ((∀ b ∈ [oneBar], 0 < b.close) ∧
      backtest_moving_average_strategy [oneBar] 1 1 = .ok maOneResult ∧
      maOneResult.total_invested = 0 ∧ maOneResult.return_percentage = 0) := by
  have hd : (0 : ℚ) ≤ 1 := by norm_num
  have hp1 : ∀ b ∈ [oneBar], 0 < b.close := by
    intro b hb
    simp only [List.mem_singleton] at hb
    subst hb
    norm_num [oneBar]
  have hp2 : ∀ b ∈ [flatBar], 0 < b.close := by
    intro b hb
    simp only [List.mem_singleton] at hb
    subst hb
    norm_num [flatBar]
  have h1 : backtest_dca_strategy [oneBar] 1 = .ok dcaOneResult := by
    norm_num [backtest_dca_strategy, runLoop, dcaStep, pyDiv, mkDcaResult, dcaInit,
      oneBar, dcaOneResult]
  have h2 : backtest_ath_dip_strategy [flatBar] 20 1 = .ok athFlatResult := by
    norm_num [backtest_ath_dip_strategy, runLoop, athStep, pyDiv, mkAthResult, athInit,
      flatBar, athFlatResult]
  have h3 : backtest_moving_average_strategy [oneBar] 1 1 = .ok maOneResult := by
    norm_num [backtest_moving_average_strategy, calculate_moving_average, mapLoop,
      runLoop, maStep, pyDiv, mkMaResult, maInit, oneBar, maOneResult, List.range_succ]
  have hne1 : dcaOneResult.total_invested ≠ 0 := by norm_num [dcaOneResult]
  have hne2 : dcaOneResult.total_bitcoin ≠ 0 := by norm_num [dcaOneResult]
  have hz1 : athFlatResult.total_invested = 0 := rfl
  have hz2 : athFlatResult.total_bitcoin = 0 := rfl
  have hz3 : maOneResult.total_invested = 0 := rfl
  obtain ⟨-, -, a3, a4⟩ := claim8_zero_guards.1 [oneBar] 1 dcaOneResult hd hp1 h1
  obtain ⟨b1, b2, -, -⟩ := claim8_zero_guards.2.1 [flatBar] 20 1 athFlatResult hd hp2 h2
  obtain ⟨c1, -⟩ := claim8_zero_guards.2.2 [oneBar] 1 1 maOneResult hd hp1 h3
  exact ⟨⟨hd, hp1, h1, hne1, a3 hne1, hne2, a4 hne2⟩,
    ⟨hp2, h2, hz1, b1 hz1, hz2, b2 hz2⟩, ⟨hp1, h3, hz3, c1 hz3⟩⟩

/-- The summary of the ATH-dip run on the single bar `dipBar` (dip 20,
daily budget 1): one triggered purchase. -/
def athDipResult : AthResult :=
  { dip_percentage := 20, daily_budget := 1, total_invested := 1, final_value := 1,
    total_return := 0, return_percentage := 0, total_bitcoin := 1 / 8,
    average_purchase_price := 8, final_bitcoin_price := 8, final_ath := 10,
    accumulated_cash := 0, number_of_purchases := 1, number_of_days := 1,
    purchases := athDipState.purchases,
    portfolio_values := athDipState.portfolio_values }

/-- C10: on positive-price data, every allocation event emitted by the
ATH-dip strategy records a strictly positive all-time high, a purchase
price at most (1 - dip_percentage/100) times that high, and a recorded
dip context value of at least the configured dip_percentage. -/
theorem claim10_dip_event_bounds :
    ∀ (data : List Bar) (dip daily : ℚ) (r : AthResult),
      (∀ b ∈ data, 0 < b.close ∧ 0 < b.high) →
      backtest_ath_dip_strategy data dip daily = .ok r →
      ∀ p ∈ r.purchases, 0 < p.all_time_high ∧
        p.price ≤ (1 - dip / 100) * p.all_time_high ∧
        dip ≤ p.dip_percentage := by
  intro data dip daily r hpos h
  obtain ⟨s, fb, hloop, hlast, hr⟩ := backtest_ath_ok h
  subst hr
  have hinv := runLoop_inv
    (fun s => ∀ p ∈ s.purchases, 0 < p.all_time_high ∧
      p.price ≤ (1 - dip / 100) * p.all_time_high ∧ dip ≤ p.dip_percentage)
    (fun b => 0 < b.close ∧ 0 < b.high) (athStep dip daily)
    (fun s x s' _ hP hs => athStep_bounds hs hP)
    data athInit s hpos (by simp [athInit]) hloop
  simpa [mkAthResult] using hinv

/-- C10, witness: the bounds on the single triggered purchase of the
concrete run on `dipBar`. -/
theorem claim10_witness :
    (∀ b ∈ [dipBar], 0 < b.close ∧ 0 < b.high) ∧
    backtest_ath_dip_strategy [dipBar] 20 1 = .ok athDipResult ∧
    ∀ p ∈ athDipResult.purchases, 0 < p.all_time_high ∧
      p.price ≤ (1 - 20 / 100) * p.all_time_high ∧
      (20 : ℚ) ≤ p.dip_percentage := by
  have hpos : ∀ b ∈ [dipBar], 0 < b.close ∧ 0 < b.high := by
    intro b hb
    simp only [List.mem_singleton] at hb
    subst hb
    norm_num [dipBar]
  have h : backtest_ath_dip_strategy [dipBar] 20 1 = .ok athDipResult := by
    norm_num [backtest_ath_dip_strategy, runLoop, athStep, pyDiv, mkAthResult, athInit,
      dipBar, athDipResult, athDipState]
  exact ⟨hpos, h, claim10_dip_event_bounds [dipBar] 20 1 athDipResult hpos h⟩

/-- The moving-average loop state after one bar `oneBar` paired with no
average (warm-up day): cash accrues, no trade. -/
def maSkipState : MaState :=
  { accumulated_cash := 1, bitcoin_held := 0, total_invested := 0,
    trades := [], portfolio_values := [1] }

/-- C6: with window W ≥ 1, the precomputed average list is `none` at every
index before W - 1 (so those days withhold unconditionally while cash
accrues, and no event is emitted) and, from index W - 1 on, is the
arithmetic mean of the W most recent closes including the current day
(the slice `data[i+1-W : i+1]`, which has exactly W entries); on a day
with an average, the entire accumulated cash is deployed exactly when
close < average and the accrued cash is positive. -/
theorem claim6_moving_average :
    ∀ (W : Nat), 1 ≤ W →
      (∀ data : List Bar,
        calculate_moving_average data W =
          .ok ((List.range data.length).map (maEntry data W))) ∧
      (∀ (data : List Bar) (i : Nat), i < W - 1 → maEntry data W i = none) ∧
      (∀ (data : List Bar) (i : Nat), W - 1 ≤ i → i < data.length →
        maEntry data W i =
          some ((((data.drop (i + 1 - W)).take W).map Bar.close).sum / (W : ℚ)) ∧
        ((data.drop (i + 1 - W)).take W).length = W) ∧
      (∀ (daily : ℚ) (s : MaState) (bar : Bar) (s' : MaState),
        maStep daily s (bar, none) = .ok s' →
        s'.trades = s.trades ∧ s'.accumulated_cash = s.accumulated_cash + daily) ∧
      (∀ (daily : ℚ) (s : MaState) (bar : Bar) (a : ℚ) (s' : MaState),
        maStep daily s (bar, some a) = .ok s' →
        ((s'.trades.length = s.trades.length + 1) ↔
          (bar.close < a ∧ 0 < s.accumulated_cash + daily)) ∧
        ((bar.close < a ∧ 0 < s.accumulated_cash + daily) →
          s'.accumulated_cash = 0 ∧
          ∃ e, s'.trades = s.trades ++ [e] ∧
            e.cash_used = s.accumulated_cash + daily) ∧
        (¬ (bar.close < a ∧ 0 < s.accumulated_cash + daily) →
          s'.trades = s.trades ∧
          s'.accumulated_cash = s.accumulated_cash + daily)) := by
  intro W hW
  have hWQ : ((W : ℚ)) ≠ 0 := Nat.cast_ne_zero.mpr (by omega)
  refine ⟨?_, ?_, ?_, ?_, ?_⟩
  · intro data
    apply mapLoop_eq_map
    intro i _
    by_cases hiW : i < W - 1
    · rw [if_pos hiW, maEntry, if_pos hiW]
    · rw [if_neg hiW, maEntry, if_neg hiW]
      simp [pyDiv, hWQ]
  · intro data i hi
    simp [maEntry, hi]
  · intro data i hiW hilen
    have hni : ¬ i < W - 1 := not_lt.mpr hiW
    refine ⟨by simp [maEntry, hni], ?_⟩
    rw [List.length_take, List.length_drop]
    omega
  · intro daily s bar s' h
    obtain ⟨-, hnone, -⟩ := maStep_cases h
    obtain ⟨h1, h2, -, -⟩ := hnone rfl
    exact ⟨h1, h2⟩
  · intro daily s bar a s' h
    obtain ⟨-, -, hsome⟩ := maStep_cases h
    obtain ⟨hbuy, hskip⟩ := hsome a rfl
    refine ⟨?_, ?_, ?_⟩
    · by_cases hcond : bar.close < a ∧ 0 < s.accumulated_cash + daily
      · rw [(hbuy hcond).2.2.2]
        exact iff_of_true (by simp) hcond
      · rw [(hskip hcond).1]
        exact iff_of_false (by simp) hcond
    · intro hcond
      obtain ⟨hc, -, -, htr⟩ := hbuy hcond
      exact ⟨hc, _, htr, rfl⟩
    · intro hn
      obtain ⟨htr, hc, -, -⟩ := hskip hn
      exact ⟨htr, hc⟩

/-- C6, witness: window 2 on the 3-bar series `c9bars`, plus concrete
warm-up and triggered steps. -/
theorem claim6_witness :
    1 ≤ 2 ∧
    calculate_moving_average c9bars 2 =
      .ok ((List.range c9bars.length).map (maEntry c9bars 2)) ∧
    ((0 : Nat) < 2 - 1 ∧ maEntry c9bars 2 0 = none) ∧
    (2 - 1 ≤ 1 ∧ 1 < c9bars.length ∧
      maEntry c9bars 2 1 =
        some ((((c9bars.drop 0).take 2).map Bar.close).sum / (2 : ℚ)) ∧
      ((c9bars.drop 0).take 2).length = 2) ∧
    (maStep 1 maInit (oneBar, none) = .ok maSkipState ∧
      maSkipState.trades = maInit.trades ∧
      maSkipState.accumulated_cash = maInit.accumulated_cash + 1) ∧
    (maStep 1 maInit (oneBar, some 2) = .ok maBuyState ∧
      maBuyState.trades.length = maInit.trades.length + 1 ∧
      maBuyState.accumulated_cash = 0) := by
  have h6 := claim6_moving_average 2 (by norm_num)
  have hlen : (1 : Nat) < c9bars.length := by norm_num [c9bars]
  have hskip : maStep 1 maInit (oneBar, none) = .ok maSkipState := by
    norm_num [maStep, maInit, oneBar, maSkipState]
  have hbuy : maStep 1 maInit (oneBar, some 2) = .ok maBuyState := by
    norm_num [maStep, pyDiv, maInit, oneBar, maBuyState]
  have hcond : oneBar.close < (2 : ℚ) ∧ 0 < maInit.accumulated_cash + 1 := by
    norm_num [oneBar, maInit]
  obtain ⟨hs1, hs2⟩ := h6.2.2.2.1 1 maInit oneBar maSkipState hskip
  have hone := h6.2.2.2.2 1 maInit oneBar 2 maBuyState hbuy
  obtain ⟨hm1, hm2⟩ := h6.2.2.1 c9bars 1 (by norm_num) hlen
  exact ⟨by norm_num, h6.1 c9bars, ⟨by norm_num, h6.2.1 c9bars 0 (by norm_num)⟩,
    ⟨by norm_num, hlen, hm1, hm2⟩, ⟨hskip, hs1, hs2⟩,
    ⟨hbuy, hone.1.mpr hcond, ((hone.2.1) hcond).1⟩⟩
